import Mathlib

/-!
Verification of the `relay/oauth2` access-token manager (`main.go`).

The Go code is shallowly embedded as Lean functions:

* `AccessToken`, `AccessTokenResponse` mirror the Go structs; `time.Time`
  is modelled as `Nat` nanoseconds, `time.Hour` as the constant `hour`.
* The cache `map[string]*AccessToken` is modelled as a total function
  `String → Option AccessToken`; `cacheInsert` is map assignment.
* The HTTP layer (`http.NewRequest` / `client.Do` / `ioutil.ReadAll`) and
  `json.Unmarshal` are external collaborators; they are modelled as an
  environment `FetchEnv` of oracles, so `generateAccessToken` is a pure
  function of that environment.
* `GetAccessToken` takes the fetch as a thunk and also reports how many
  times the fetch was invoked, so that fetch-count claims are statable.
* The mutex-serialized concurrent behaviour is modelled by an explicit
  transition system `Step` over `BurstState` (one lock, n threads each
  running the body of `GetAccessToken`).
-/

namespace OAuth2

/-- `time.Hour` in nanoseconds, the fixed validity window added by
`generateAccessToken`. -/
def hour : Nat := 3600000000000

/-- Go struct `AccessToken` (`Value string; ExpiresAt time.Time`). -/
structure AccessToken where
  value : String
  expiresAt : Nat
deriving DecidableEq

/-- The cache field `tokenCache map[string]*AccessToken` of
`AccessTokenManager`, as a total function to `Option`. -/
def TokenCache : Type := String → Option AccessToken

/-- `make(map[string]*AccessToken)`: the empty cache. -/
def emptyCache : TokenCache := fun _ => none

/-- `tm.tokenCache[clientID] = newToken`: map assignment. -/
def cacheInsert (c : TokenCache) (k : String) (v : AccessToken) : TokenCache :=
  fun q => if q = k then some v else c q

/-- Go struct `AccessTokenManager` (the mutex is modelled separately, in the
concurrent transition system). -/
structure AccessTokenManager where
  tokenCache : TokenCache

/-- `NewAccessTokenManager` constructs a manager with an empty cache. -/
def NewAccessTokenManager : AccessTokenManager :=
  { tokenCache := emptyCache }

/-- Go struct `AccessTokenResponse`, the JSON schema of the token endpoint
response body. -/
structure AccessTokenResponse where
  access_token : String
  token_type : String
  expires_in : Int
  scope : String
  jti : String
deriving DecidableEq

/-- The error kinds `generateAccessToken` can return: `http.NewRequest`
failure, `client.Do` failure, `ioutil.ReadAll` failure, `json.Unmarshal`
failure. -/
inductive FetchError where
  | requestBuildError
  | transportError
  | readError
  | decodeError
deriving DecidableEq

/-- The request built by `http.NewRequest` plus the `Authorization` header
set by `req.Header.Set`. -/
structure HttpRequest where
  method : String
  url : String
  body : String
  authorization : Option String
deriving DecidableEq

/-- Outcome of `client.Do` followed by `ioutil.ReadAll`: transport failure,
body-read failure, or a status code with a fully read body. -/
inductive SendResult where
  | sendError
  | readError (status : Nat)
  | ok (status : Nat) (body : String)
deriving DecidableEq

/-- The external world `generateAccessToken` interacts with: whether
`http.NewRequest` accepts the URL, what the round trip returns, and how
`json.Unmarshal` parses a body (`none` = malformed JSON; missing fields of
a parseable body appear as Go zero values in the `some` result). -/
structure FetchEnv where
  urlOK : String → Bool
  send : HttpRequest → SendResult
  unmarshal : String → Option AccessTokenResponse

/- ### Base64 (encoding/base64 StdEncoding) -/

/-- The standard base64 alphabet. -/
def b64Chars : List Char :=
  String.toList "ABCDEFGHIJKLMNOPQRSTUVWXYZabcdefghijklmnopqrstuvwxyz0123456789+/"

/-- Character for a 6-bit group. -/
def b64Char (n : Nat) : Char := b64Chars.getD n '='

/-- `base64.StdEncoding.EncodeToString` over a byte list: 3 bytes → 4
characters, with `=` padding. -/
def base64Encode : List Nat → String
  | [] => ""
  | [a] =>
      String.mk [b64Char (a / 4), b64Char (a % 4 * 16), '=', '=']
  | [a, b] =>
      String.mk [b64Char (a / 4), b64Char (a % 4 * 16 + b / 16),
        b64Char (b % 16 * 4), '=']
  | a :: b :: c :: rest =>
      String.mk [b64Char (a / 4), b64Char (a % 4 * 16 + b / 16),
        b64Char (b % 16 * 4 + c / 64), b64Char (c % 64)] ++ base64Encode rest

/-- UTF-8 encoding of one character as bytes. -/
def utf8Bytes (c : Char) : List Nat :=
  let n := c.toNat
  if n < 128 then [n]
  else if n < 2048 then [192 + n / 64, 128 + n % 64]
  else if n < 65536 then [224 + n / 4096, 128 + n / 64 % 64, 128 + n % 64]
  else [240 + n / 262144, 128 + n / 4096 % 64, 128 + n / 64 % 64, 128 + n % 64]

/-- The bytes of a Go string (UTF-8). -/
def strBytes (s : String) : List Nat :=
  s.toList.foldr (fun c acc => utf8Bytes c ++ acc) []

/- ### generateAccessToken -/

/-- `uaaUrl + "/oauth/token?grant_type=client_credentials"`. -/
def tokenUrl (uaaUrl : String) : String :=
  uaaUrl ++ "/oauth/token?grant_type=client_credentials"

/-- The POST request built by `generateAccessToken`: empty payload and
`Authorization: Basic base64(clientID:clientSecret)`. -/
def buildTokenRequest (clientID clientSecret uaaUrl : String) : HttpRequest :=
  let payload := ""
  let encodedCredential := base64Encode (strBytes (clientID ++ ":" ++ clientSecret))
  let authHeader := "Basic " ++ encodedCredential
  { method := "POST", url := tokenUrl uaaUrl, body := payload,
    authorization := some authHeader }

/-- Go `generateAccessToken`: build the request (failing if the URL is
rejected), send it, read the body, unmarshal it, and on success return a
credential valid for exactly one `hour` from `now` (the time at which the
credential is constructed), ignoring `expires_in`. -/
def generateAccessToken (env : FetchEnv) (now : Nat)
    (clientID clientSecret uaaUrl : String) : Except FetchError AccessToken :=
  if env.urlOK (tokenUrl uaaUrl) then
    match env.send (buildTokenRequest clientID clientSecret uaaUrl) with
    | SendResult.sendError => Except.error FetchError.transportError
    | SendResult.readError _ => Except.error FetchError.readError
    | SendResult.ok _ body =>
        match env.unmarshal body with
        | none => Except.error FetchError.decodeError
        | some tokenResp =>
            Except.ok { value := tokenResp.access_token, expiresAt := now + hour }
  else Except.error FetchError.requestBuildError

/- ### GetAccessToken -/

/-- Result of one `GetAccessToken` call: the returned token string, the
returned error, the cache after the call, and how many times the fetch ran. -/
structure GetResult where
  value : String
  error : Option FetchError
  cache : TokenCache
  fetchCount : Nat

/-- The miss path of `GetAccessToken`: run `generateAccessToken` once; on
error return `("", err)` leaving the cache alone, on success store the new
token under `clientID` and return its value. -/
def fetchAndStore (tokenCache : TokenCache) (clientID : String)
    (fetch : Unit → Except FetchError AccessToken) : GetResult :=
  match fetch () with
  | Except.error e => { value := "", error := some e, cache := tokenCache, fetchCount := 1 }
  | Except.ok newToken =>
      { value := newToken.value, error := none,
        cache := cacheInsert tokenCache clientID newToken, fetchCount := 1 }

/-- Go `AccessTokenManager.GetAccessToken` (body under the mutex): if the
cache has an entry for `clientID` and `now` is strictly before its
`expiresAt`, return it; otherwise fetch, store on success, and return. -/
def GetAccessToken (tokenCache : TokenCache) (now : Nat) (clientID : String)
    (fetch : Unit → Except FetchError AccessToken) : GetResult :=
  match tokenCache clientID with
  | some token =>
      if now < token.expiresAt then
        { value := token.value, error := none, cache := tokenCache, fetchCount := 0 }
      else fetchAndStore tokenCache clientID fetch
  | none => fetchAndStore tokenCache clientID fetch

/-- `GetAccessToken` with the fetch wired to `generateAccessToken`:
`now` is the cache-check time, `fetchNow` the credential-construction time. -/
def GetAccessTokenFull (env : FetchEnv) (tokenCache : TokenCache)
    (now fetchNow : Nat) (clientID clientSecret uaaUrl : String) : GetResult :=
  GetAccessToken tokenCache now clientID
    (fun _ => generateAccessToken env fetchNow clientID clientSecret uaaUrl)

/- ### Basic lemmas about the cache and the two paths of GetAccessToken -/

theorem cacheInsert_self (c : TokenCache) (k : String) (v : AccessToken) :
    cacheInsert c k v k = some v := by
  simp [cacheInsert]

theorem cacheInsert_ne (c : TokenCache) (k : String) (v : AccessToken)
    (q : String) (h : q ≠ k) : cacheInsert c k v q = c q := by
  simp [cacheInsert, h]

theorem getAccessToken_hit (c : TokenCache) (now : Nat) (cid : String)
    (fetch : Unit → Except FetchError AccessToken) (tok : AccessToken)
    (h1 : c cid = some tok) (h2 : now < tok.expiresAt) :
    GetAccessToken c now cid fetch =
      { value := tok.value, error := none, cache := c, fetchCount := 0 } := by
  simp [GetAccessToken, h1, h2]

theorem getAccessToken_miss (c : TokenCache) (now : Nat) (cid : String)
    (fetch : Unit → Except FetchError AccessToken)
    (h : ∀ tok, c cid = some tok → tok.expiresAt ≤ now) :
    GetAccessToken c now cid fetch = fetchAndStore c cid fetch := by
  unfold GetAccessToken
  cases hc : c cid with
  | none => rfl
  | some tok => simp [Nat.not_lt.mpr (h tok hc)]

theorem fetchAndStore_error (c : TokenCache) (cid : String)
    (fetch : Unit → Except FetchError AccessToken) (e : FetchError)
    (herr : fetch () = Except.error e) :
    fetchAndStore c cid fetch =
      { value := "", error := some e, cache := c, fetchCount := 1 } := by
  simp [fetchAndStore, herr]

theorem fetchAndStore_ok (c : TokenCache) (cid : String)
    (fetch : Unit → Except FetchError AccessToken) (tok : AccessToken)
    (hok : fetch () = Except.ok tok) :
    fetchAndStore c cid fetch =
      { value := tok.value, error := none,
        cache := cacheInsert c cid tok, fetchCount := 1 } := by
  simp [fetchAndStore, hok]

theorem generateAccessToken_ok_success (env : FetchEnv) (now : Nat)
    (cid cs u : String) (status : Nat) (body : String) (r : AccessTokenResponse)
    (hu : env.urlOK (tokenUrl u) = true)
    (hs : env.send (buildTokenRequest cid cs u) = SendResult.ok status body)
    (hm : env.unmarshal body = some r) :
    generateAccessToken env now cid cs u =
      Except.ok { value := r.access_token, expiresAt := now + hour } := by
  simp [generateAccessToken, hu, hs, hm]

/- ### Concrete objects used by the witnesses -/

def wTok : AccessToken := { value := "tok", expiresAt := 10 }

def wCache : TokenCache := cacheInsert emptyCache "id" wTok

def wCacheHour : TokenCache :=
  cacheInsert emptyCache "id" { value := "tok", expiresAt := 0 + hour }

def wFetchErr : Unit → Except FetchError AccessToken :=
  fun _ => Except.error FetchError.transportError

def wFetchOk : Unit → Except FetchError AccessToken :=
  fun _ => Except.ok wTok

def wResp : AccessTokenResponse :=
  { access_token := "tok", token_type := "bearer", expires_in := 3600,
    scope := "", jti := "" }

def wRespEmpty : AccessTokenResponse :=
  { access_token := "", token_type := "", expires_in := 0, scope := "", jti := "" }

def wEnv500 : FetchEnv :=
  { urlOK := fun _ => true, send := fun _ => SendResult.ok 500 "body",
    unmarshal := fun _ => some wResp }

def wEnvBad : FetchEnv :=
  { urlOK := fun _ => false, send := fun _ => SendResult.ok 200 "body",
    unmarshal := fun _ => some wResp }

def wEnvEmpty : FetchEnv :=
  { urlOK := fun _ => true, send := fun _ => SendResult.ok 200 "body",
    unmarshal := fun _ => some wRespEmpty }

/- ### Claim theorems -/

/-- C1: if the cache holds an entry for `clientID` whose `expiresAt` is
strictly after `now`, `GetAccessToken` returns that entry's value with no
error, invokes the fetch zero times, and leaves the cache unchanged. -/
theorem getAccessToken_cache_hit (c : TokenCache) (now : Nat) (cid : String)
    (fetch : Unit → Except FetchError AccessToken) (tok : AccessToken)
    (h1 : c cid = some tok) (h2 : now < tok.expiresAt) :
    GetAccessToken c now cid fetch =
      { value := tok.value, error := none, cache := c, fetchCount := 0 } :=
  getAccessToken_hit c now cid fetch tok h1 h2

theorem getAccessToken_cache_hit_witness :
    GetAccessToken wCache 5 "id" wFetchErr =
      { value := "tok", error := none, cache := wCache, fetchCount := 0 } :=
  getAccessToken_cache_hit wCache 5 "id" wFetchErr wTok (by decide) (by decide)

/-- C2: every credential produced by a successful `generateAccessToken` has
`expiresAt` equal to the construction time plus exactly one hour, whatever
the response's `expires_in` was; and a cached credential with
`expiresAt = T + hour` is served by `GetAccessToken` at every time strictly
before `T + hour` and triggers the fetch path at every time at or after it. -/
theorem fixed_one_hour_validity :
    (∀ (env : FetchEnv) (now : Nat) (cid cs u : String) (tok : AccessToken),
      generateAccessToken env now cid cs u = Except.ok tok →
      tok.expiresAt = now + hour)
    ∧ (∀ (c : TokenCache) (cid : String) (tok : AccessToken)
        (fetch : Unit → Except FetchError AccessToken) (T : Nat),
        c cid = some tok → tok.expiresAt = T + hour →
        (∀ t, t < T + hour →
          GetAccessToken c t cid fetch =
            { value := tok.value, error := none, cache := c, fetchCount := 0 })
        ∧ (∀ t, T + hour ≤ t →
          GetAccessToken c t cid fetch = fetchAndStore c cid fetch)) := by
  constructor
  · intro env now cid cs u tok h
    by_cases hu : env.urlOK (tokenUrl u) = true
    · cases hs : env.send (buildTokenRequest cid cs u) with
      | sendError => simp [generateAccessToken, hu, hs] at h
      | readError st => simp [generateAccessToken, hu, hs] at h
      | ok st body =>
          cases hm : env.unmarshal body with
          | none => simp [generateAccessToken, hu, hs, hm] at h
          | some r =>
              rw [generateAccessToken_ok_success env now cid cs u st body r hu hs hm]
                at h
              injection h with h2
              subst h2
              rfl
    · rw [Bool.not_eq_true] at hu
      simp [generateAccessToken, hu] at h
  · intro c cid tok fetch T h1 h2
    constructor
    · intro t ht
      exact getAccessToken_hit c t cid fetch tok h1 (h2 ▸ ht)
    · intro t ht
      refine getAccessToken_miss c t cid fetch ?_
      intro tok' h1'
      rw [h1] at h1'
      cases h1'
      rw [h2]
      exact ht

theorem fixed_one_hour_validity_witness :
    ((AccessToken.mk "tok" (0 + hour)).expiresAt = 0 + hour)
    ∧ GetAccessToken wCacheHour 5 "id" wFetchErr =
        { value := "tok", error := none, cache := wCacheHour, fetchCount := 0 }
    ∧ GetAccessToken wCacheHour hour "id" wFetchErr =
        fetchAndStore wCacheHour "id" wFetchErr := by
  have h1 := fixed_one_hour_validity.1 wEnv500 0 "id" "sec" "u"
    (AccessToken.mk "tok" (0 + hour)) rfl
  have h2 := fixed_one_hour_validity.2 wCacheHour "id"
    (AccessToken.mk "tok" (0 + hour)) wFetchErr 0 (by decide) rfl
  exact ⟨h1, h2.1 5 (by decide), h2.2 hour (by decide)⟩

/-- C3: when the fetch path is taken and the fetch fails, `GetAccessToken`
returns that error and the cache mapping after the call is exactly the one
before it (no entry written, the old entry for `clientID` kept). -/
theorem getAccessToken_error_atomic (c : TokenCache) (now : Nat) (cid : String)
    (fetch : Unit → Except FetchError AccessToken) (e : FetchError)
    (hmiss : ∀ tok, c cid = some tok → tok.expiresAt ≤ now)
    (herr : fetch () = Except.error e) :
    GetAccessToken c now cid fetch =
      { value := "", error := some e, cache := c, fetchCount := 1 } := by
  rw [getAccessToken_miss c now cid fetch hmiss]
  exact fetchAndStore_error c cid fetch e herr

theorem getAccessToken_error_atomic_witness :
    GetAccessToken wCache 10 "id" wFetchErr =
      { value := "", error := some FetchError.transportError,
        cache := wCache, fetchCount := 1 } :=
  getAccessToken_error_atomic wCache 10 "id" wFetchErr
    FetchError.transportError (by decide) rfl

/-- C4: on a cache miss (no entry, or entry not strictly later than `now`)
`GetAccessToken` invokes the fetch exactly once, and on fetch success it
stores the fetched credential under `clientID` and returns its value with
no error. -/
theorem getAccessToken_miss_store (c : TokenCache) (now : Nat) (cid : String)
    (fetch : Unit → Except FetchError AccessToken)
    (hmiss : ∀ tok, c cid = some tok → tok.expiresAt ≤ now) :
    (GetAccessToken c now cid fetch).fetchCount = 1
    ∧ ∀ tok, fetch () = Except.ok tok →
        GetAccessToken c now cid fetch =
          { value := tok.value, error := none,
            cache := cacheInsert c cid tok, fetchCount := 1 } := by
  rw [getAccessToken_miss c now cid fetch hmiss]
  constructor
  · cases hf : fetch () with
    | error e => rw [fetchAndStore_error c cid fetch e hf]
    | ok tok => rw [fetchAndStore_ok c cid fetch tok hf]
  · intro tok hok
    exact fetchAndStore_ok c cid fetch tok hok

theorem getAccessToken_miss_store_witness :
    (GetAccessToken wCache 10 "id" wFetchOk).fetchCount = 1
    ∧ GetAccessToken wCache 10 "id" wFetchOk =
        { value := "tok", error := none,
          cache := cacheInsert wCache "id" wTok, fetchCount := 1 } := by
  have h := getAccessToken_miss_store wCache 10 "id" wFetchOk (by decide)
  exact ⟨h.1, h.2 wTok rfl⟩

/-- C5: the request built by `generateAccessToken` is a POST to
`endpointURL ++ "/oauth/token?grant_type=client_credentials"` with empty
body and `Authorization: Basic base64(clientID:clientSecret)`; the base64
encoder is the standard one (checked on a concrete vector). -/
theorem buildTokenRequest_spec (cid cs u : String) :
    buildTokenRequest cid cs u =
      { method := "POST",
        url := u ++ "/oauth/token?grant_type=client_credentials",
        body := "",
        authorization :=
          some ("Basic " ++ base64Encode (strBytes (cid ++ ":" ++ cs))) }
    ∧ base64Encode (strBytes "id:secret") = "aWQ6c2VjcmV0"
    ∧ base64Encode (strBytes "client:topsecret") = "Y2xpZW50OnRvcHNlY3JldA==" :=
  ⟨rfl, by decide, by decide⟩

/-- C6: any response whose body unmarshals successfully yields a successful
fetch whose credential value is the response's `access_token`, regardless
of the HTTP status code; and the fetch fails exactly when request building,
sending, body reading, or JSON decoding fails. -/
theorem generate_no_status_validation (env : FetchEnv) (now : Nat)
    (cid cs u : String) :
    (∀ (status : Nat) (body : String) (r : AccessTokenResponse),
        env.urlOK (tokenUrl u) = true →
        env.send (buildTokenRequest cid cs u) = SendResult.ok status body →
        env.unmarshal body = some r →
        generateAccessToken env now cid cs u =
          Except.ok { value := r.access_token, expiresAt := now + hour })
    ∧ ((∃ e, generateAccessToken env now cid cs u = Except.error e) ↔
        (env.urlOK (tokenUrl u) = false
          ∨ env.send (buildTokenRequest cid cs u) = SendResult.sendError
          ∨ (∃ st, env.send (buildTokenRequest cid cs u) = SendResult.readError st)
          ∨ (∃ st body, env.send (buildTokenRequest cid cs u) = SendResult.ok st body
              ∧ env.unmarshal body = none))) := by
  constructor
  · intro status body r hu hs hm
    exact generateAccessToken_ok_success env now cid cs u status body r hu hs hm
  · by_cases hu : env.urlOK (tokenUrl u) = true
    · cases hs : env.send (buildTokenRequest cid cs u) with
      | sendError => simp [generateAccessToken, hu, hs]
      | readError st => simp [generateAccessToken, hu, hs]
      | ok st body =>
          cases hm : env.unmarshal body with
          | none =>
              simp [generateAccessToken, hu, hs, hm]
              exact ⟨st, body, ⟨rfl, rfl⟩, hm⟩
          | some r => simp [generateAccessToken, hu, hs, hm]
    · rw [Bool.not_eq_true] at hu
      simp [generateAccessToken, hu]

theorem generate_no_status_validation_witness :
    generateAccessToken wEnv500 7 "id" "sec" "u" =
      Except.ok { value := "tok", expiresAt := 7 + hour }
    ∧ (∃ e, generateAccessToken wEnvBad 7 "id" "sec" "u" = Except.error e) := by
  have h1 := generate_no_status_validation wEnv500 7 "id" "sec" "u"
  have h2 := generate_no_status_validation wEnvBad 7 "id" "sec" "u"
  exact ⟨h1.1 500 "body" wResp rfl rfl rfl, h2.2.mpr (Or.inl rfl)⟩

/-- C8: `GetAccessToken` never changes the entry of any key other than the
requested one, never turns a present entry absent (keys only grow), and the
manager starts with an empty cache. -/
theorem getAccessToken_frame (c : TokenCache) (now : Nat) (cid : String)
    (fetch : Unit → Except FetchError AccessToken) :
    (∀ k, k ≠ cid → (GetAccessToken c now cid fetch).cache k = c k)
    ∧ (∀ k, (c k).isSome = true →
        ((GetAccessToken c now cid fetch).cache k).isSome = true)
    ∧ (∀ k, NewAccessTokenManager.tokenCache k = none) := by
  have hcache : (GetAccessToken c now cid fetch).cache = c
      ∨ ∃ tok, (GetAccessToken c now cid fetch).cache = cacheInsert c cid tok := by
    by_cases hsome : ∃ tok, c cid = some tok ∧ now < tok.expiresAt
    · obtain ⟨tok, h1, h2⟩ := hsome
      rw [getAccessToken_hit c now cid fetch tok h1 h2]
      exact Or.inl rfl
    · have hmiss : ∀ tok, c cid = some tok → tok.expiresAt ≤ now := by
        intro tok h1
        by_contra hlt
        exact hsome ⟨tok, h1, Nat.not_le.mp hlt⟩
      rw [getAccessToken_miss c now cid fetch hmiss]
      cases hf : fetch () with
      | error e =>
          rw [fetchAndStore_error c cid fetch e hf]
          exact Or.inl rfl
      | ok tok =>
          rw [fetchAndStore_ok c cid fetch tok hf]
          exact Or.inr ⟨tok, rfl⟩
  refine ⟨?_, ?_, fun k => rfl⟩
  · intro k hk
    rcases hcache with h | ⟨tok, h⟩
    · rw [h]
    · rw [h]
      exact cacheInsert_ne c cid tok k hk
  · intro k hk
    rcases hcache with h | ⟨tok, h⟩
    · rw [h]
      exact hk
    · rw [h]
      by_cases hkc : k = cid
      · subst hkc
        rw [cacheInsert_self]
        rfl
      · rw [cacheInsert_ne c cid tok k hkc]
        exact hk

theorem getAccessToken_frame_witness :
    (GetAccessToken wCache 10 "id" wFetchOk).cache "other" = wCache "other"
    ∧ ((GetAccessToken wCache 10 "id" wFetchOk).cache "id").isSome = true := by
  have h := getAccessToken_frame wCache 10 "id" wFetchOk
  exact ⟨h.1 "other" (by decide), h.2.1 "id" (by decide)⟩

/-- C9: when the fetch path is taken and the fetch fails, the token value
returned by `GetAccessToken` is the empty string, alongside the error. -/
theorem getAccessToken_error_empty_value (c : TokenCache) (now : Nat)
    (cid : String) (fetch : Unit → Except FetchError AccessToken) (e : FetchError)
    (hmiss : ∀ tok, c cid = some tok → tok.expiresAt ≤ now)
    (herr : fetch () = Except.error e) :
    (GetAccessToken c now cid fetch).value = ""
    ∧ (GetAccessToken c now cid fetch).error = some e := by
  rw [getAccessToken_miss c now cid fetch hmiss,
    fetchAndStore_error c cid fetch e herr]
  exact ⟨rfl, rfl⟩

theorem getAccessToken_error_empty_value_witness :
    (GetAccessToken wCache 10 "id" wFetchErr).value = ""
    ∧ (GetAccessToken wCache 10 "id" wFetchErr).error =
        some FetchError.transportError :=
  getAccessToken_error_empty_value wCache 10 "id" wFetchErr
    FetchError.transportError (by decide) rfl

/-- C10: a body that unmarshals with an empty (or missing, hence zero-value)
`access_token` makes `GetAccessToken` store a credential with empty value
and a one-hour expiry, and every later call within that hour returns the
empty string from the cache with no error and no new fetch. -/
theorem empty_token_cached (env : FetchEnv) (c : TokenCache) (T : Nat)
    (cid cs u : String) (status : Nat) (body : String) (r : AccessTokenResponse)
    (hmiss : ∀ tok, c cid = some tok → tok.expiresAt ≤ T)
    (hu : env.urlOK (tokenUrl u) = true)
    (hs : env.send (buildTokenRequest cid cs u) = SendResult.ok status body)
    (hm : env.unmarshal body = some r)
    (hempty : r.access_token = "") :
    GetAccessTokenFull env c T T cid cs u =
      { value := "", error := none,
        cache := cacheInsert c cid { value := "", expiresAt := T + hour },
        fetchCount := 1 }
    ∧ ∀ (t : Nat) (fetch2 : Unit → Except FetchError AccessToken), t < T + hour →
        GetAccessToken (cacheInsert c cid { value := "", expiresAt := T + hour })
            t cid fetch2 =
          { value := "", error := none,
            cache := cacheInsert c cid { value := "", expiresAt := T + hour },
            fetchCount := 0 } := by
  have hgen : generateAccessToken env T cid cs u =
      Except.ok { value := "", expiresAt := T + hour } := by
    rw [generateAccessToken_ok_success env T cid cs u status body r hu hs hm, hempty]
  constructor
  · unfold GetAccessTokenFull
    rw [getAccessToken_miss c T cid _ hmiss]
    exact fetchAndStore_ok c cid _ { value := "", expiresAt := T + hour } hgen
  · intro t fetch2 ht
    exact getAccessToken_hit _ t cid fetch2 { value := "", expiresAt := T + hour }
      (cacheInsert_self c cid _) ht

theorem empty_token_cached_witness :
    GetAccessTokenFull wEnvEmpty emptyCache 0 0 "id" "sec" "u" =
      { value := "", error := none,
        cache := cacheInsert emptyCache "id" { value := "", expiresAt := 0 + hour },
        fetchCount := 1 }
    ∧ GetAccessToken
        (cacheInsert emptyCache "id" { value := "", expiresAt := 0 + hour })
        5 "id" wFetchErr =
      { value := "", error := none,
        cache := cacheInsert emptyCache "id" { value := "", expiresAt := 0 + hour },
        fetchCount := 0 } := by
  have h := empty_token_cached wEnvEmpty emptyCache 0 "id" "sec" "u" 200 "body"
    wRespEmpty (fun tok htok => by simp [emptyCache] at htok) rfl rfl rfl rfl
  exact ⟨h.1, h.2 5 wFetchErr (by decide)⟩


/- ### Concurrency model: n callers of GetAccessToken under the one mutex

Each thread runs the body of `GetAccessToken` for its own client id
`cids i`: acquire the mutex, check the cache, either hit (release and
finish), or fetch and then either store the fetched credential (release and
finish with its value) or fail (release and finish with the error, cache
untouched, matching the `if err != nil` branch of the Go body). `fv cid` is
the token value the endpoint returns for a client id on a successful fetch,
a fetched credential expires at `now + hour` as in `generateAccessToken`,
and fetch failure is left nondeterministic (any interleaving may fail any
fetch with any error). `fetchCount` counts fetch starts and `failCount`
counts failed fetches. -/

/-- Program counter of one caller of `GetAccessToken`. -/
inductive Phase where
  | ready
  | checking
  | fetching
  | finished
deriving DecidableEq

/-- Global state of a burst of `n` concurrent `GetAccessToken` calls: the
mutex owner, the shared cache, each thread's phase and its returned
`(value, error)` outcome (`Except.error e` stands for Go's `("", err)`
return), the number of fetches started and the number of fetches failed. -/
structure BurstState (n : Nat) where
  lock : Option (Fin n)
  cache : TokenCache
  phase : Fin n → Phase
  result : Fin n → Option (Except FetchError String)
  fetchCount : Nat
  failCount : Nat

/-- Interleaving semantics of the mutex-guarded body of `GetAccessToken`,
including the fetch-failure path. -/
inductive Step (n : Nat) (now : Nat) (cids : Fin n → String)
    (fv : String → String) : BurstState n → BurstState n → Prop where
  | acquire (σ : BurstState n) (i : Fin n) :
      σ.lock = none → σ.phase i = Phase.ready →
      Step n now cids fv σ
        { σ with lock := some i,
                 phase := Function.update σ.phase i Phase.checking }
  | hit (σ : BurstState n) (i : Fin n) (tok : AccessToken) :
      σ.lock = some i → σ.phase i = Phase.checking →
      σ.cache (cids i) = some tok → now < tok.expiresAt →
      Step n now cids fv σ
        { σ with lock := none,
                 phase := Function.update σ.phase i Phase.finished,
                 result := Function.update σ.result i
                   (some (Except.ok tok.value)) }
  | missAbsent (σ : BurstState n) (i : Fin n) :
      σ.lock = some i → σ.phase i = Phase.checking →
      σ.cache (cids i) = none →
      Step n now cids fv σ
        { σ with phase := Function.update σ.phase i Phase.fetching,
                 fetchCount := σ.fetchCount + 1 }
  | missExpired (σ : BurstState n) (i : Fin n) (tok : AccessToken) :
      σ.lock = some i → σ.phase i = Phase.checking →
      σ.cache (cids i) = some tok → tok.expiresAt ≤ now →
      Step n now cids fv σ
        { σ with phase := Function.update σ.phase i Phase.fetching,
                 fetchCount := σ.fetchCount + 1 }
  | storeOk (σ : BurstState n) (i : Fin n) :
      σ.lock = some i → σ.phase i = Phase.fetching →
      Step n now cids fv σ
        { σ with lock := none,
                 cache := cacheInsert σ.cache (cids i)
                   { value := fv (cids i), expiresAt := now + hour },
                 phase := Function.update σ.phase i Phase.finished,
                 result := Function.update σ.result i
                   (some (Except.ok (fv (cids i)))) }
  | storeErr (σ : BurstState n) (i : Fin n) (e : FetchError) :
      σ.lock = some i → σ.phase i = Phase.fetching →
      Step n now cids fv σ
        { σ with lock := none,
                 phase := Function.update σ.phase i Phase.finished,
                 result := Function.update σ.result i (some (Except.error e)),
                 failCount := σ.failCount + 1 }

/-- All threads about to call `GetAccessToken` on the shared cache `c`. -/
def initState (n : Nat) (c : TokenCache) : BurstState n :=
  { lock := none, cache := c, phase := fun _ => Phase.ready,
    result := fun _ => none, fetchCount := 0, failCount := 0 }

/-- States reachable by interleaving the threads from `init`. -/
inductive Reachable (n : Nat) (now : Nat) (cids : Fin n → String)
    (fv : String → String) (init : BurstState n) : BurstState n → Prop where
  | refl : Reachable n now cids fv init init
  | tail (σ σ' : BurstState n) : Reachable n now cids fv init σ →
      Step n now cids fv σ σ' → Reachable n now cids fv init σ'

/-- Mutex discipline: a thread inside the locked body owns the lock. -/
def LockInv {n : Nat} (σ : BurstState n) : Prop :=
  ∀ i, (σ.phase i = Phase.checking ∨ σ.phase i = Phase.fetching) →
    σ.lock = some i

theorem lockInv_init (n : Nat) (c : TokenCache) : LockInv (initState n c) := by
  intro i h
  rcases h with h | h <;> exact absurd h (by simp [initState])

theorem lockInv_step {n now : Nat} {cids : Fin n → String} {fv : String → String}
    {σ σ' : BurstState n} (hinv : LockInv σ) (hstep : Step n now cids fv σ σ') :
    LockInv σ' := by
  cases hstep with
  | acquire i hl hp =>
      intro k hk
      simp only at hk
      by_cases hki : k = i
      · subst hki
        rfl
      · rw [Function.update_noteq hki] at hk
        rw [hinv k hk] at hl
        exact absurd hl (by simp)
  | hit i tok hl hp hc hlt =>
      intro k hk
      simp only at hk
      by_cases hki : k = i
      · subst hki
        rw [Function.update_same] at hk
        rcases hk with hk | hk <;> exact absurd hk (by simp)
      · rw [Function.update_noteq hki] at hk
        have hlk := hinv k hk
        rw [hlk] at hl
        cases hl
        exact absurd rfl hki
  | missAbsent i hl hp hc =>
      intro k hk
      simp only at hk
      by_cases hki : k = i
      · subst hki
        exact hl
      · rw [Function.update_noteq hki] at hk
        exact hinv k hk
  | missExpired i tok hl hp hc hle =>
      intro k hk
      simp only at hk
      by_cases hki : k = i
      · subst hki
        exact hl
      · rw [Function.update_noteq hki] at hk
        exact hinv k hk
  | storeOk i hl hp =>
      intro k hk
      simp only at hk
      by_cases hki : k = i
      · subst hki
        rw [Function.update_same] at hk
        rcases hk with hk | hk <;> exact absurd hk (by simp)
      · rw [Function.update_noteq hki] at hk
        have hlk := hinv k hk
        rw [hlk] at hl
        cases hl
        exact absurd rfl hki
  | storeErr i e hl hp =>
      intro k hk
      simp only at hk
      by_cases hki : k = i
      · subst hki
        rw [Function.update_same] at hk
        rcases hk with hk | hk <;> exact absurd hk (by simp)
      · rw [Function.update_noteq hki] at hk
        have hlk := hinv k hk
        rw [hlk] at hl
        cases hl
        exact absurd rfl hki

theorem lockInv_reachable {n now : Nat} {cids : Fin n → String}
    {fv : String → String} {c : TokenCache} {σ : BurstState n}
    (h : Reachable n now cids fv (initState n c) σ) : LockInv σ := by
  induction h with
  | refl => exact lockInv_init n c
  | tail σ' σ2 hr hstep ih => exact lockInv_step ih hstep

/-- Error results only arise from failed fetches: while no fetch has
failed, no thread has finished with an error. -/
def NoFailNoErr {n : Nat} (σ : BurstState n) : Prop :=
  σ.failCount = 0 → ∀ i e, σ.result i ≠ some (Except.error e)

theorem noFailNoErr_step {n now : Nat} {cids : Fin n → String}
    {fv : String → String} {σ σ' : BurstState n}
    (hinv : NoFailNoErr σ) (hstep : Step n now cids fv σ σ') :
    NoFailNoErr σ' := by
  cases hstep with
  | acquire i hl hp =>
      intro hf k e
      exact hinv hf k e
  | hit i tok hl hp hc hlt =>
      intro hf k e
      simp only
      by_cases hki : k = i
      · subst hki
        rw [Function.update_same]
        simp
      · rw [Function.update_noteq hki]
        exact hinv hf k e
  | missAbsent i hl hp hc =>
      intro hf k e
      exact hinv hf k e
  | missExpired i tok hl hp hc hle =>
      intro hf k e
      exact hinv hf k e
  | storeOk i hl hp =>
      intro hf k e
      simp only
      by_cases hki : k = i
      · subst hki
        rw [Function.update_same]
        simp
      · rw [Function.update_noteq hki]
        exact hinv hf k e
  | storeErr i e0 hl hp =>
      intro hf k e
      exact absurd hf (by simp)

theorem noFailNoErr_reachable {n now : Nat} {cids : Fin n → String}
    {fv : String → String} {c : TokenCache} {σ : BurstState n}
    (h : Reachable n now cids fv (initState n c) σ) : NoFailNoErr σ := by
  induction h with
  | refl => intro hf k e; simp [initState]
  | tail σ' σ2 hr hstep ih => exact noFailNoErr_step ih hstep

/-- Invariant of a same-key burst starting from a stale cache: either every
started fetch has failed (cache still stale, every finished thread holds an
error), or one more fetch is in flight, or one fetch has succeeded (cache
fresh, no fetch in flight, every finished thread holds an error from an
earlier failed fetch or the fetched value). -/
def BurstInv (n : Nat) (now : Nat) (cid : String) (v : String)
    (c0 : TokenCache) (σ : BurstState n) : Prop :=
  (σ.fetchCount = σ.failCount ∧ σ.cache = c0 ∧
     (∀ i, σ.phase i ≠ Phase.fetching) ∧
     ∀ i, σ.phase i = Phase.finished →
       ∃ e, σ.result i = some (Except.error e))
  ∨ (σ.fetchCount = σ.failCount + 1 ∧ σ.cache = c0 ∧
     ∃ i, σ.phase i = Phase.fetching ∧ σ.lock = some i ∧
       ∀ j, j ≠ i → σ.phase j = Phase.ready
         ∨ (σ.phase j = Phase.finished ∧
            ∃ e, σ.result j = some (Except.error e)))
  ∨ (σ.fetchCount = σ.failCount + 1 ∧
     σ.cache = cacheInsert c0 cid { value := v, expiresAt := now + hour } ∧
     (∀ i, σ.phase i ≠ Phase.fetching) ∧
     ∀ i, σ.phase i = Phase.finished →
       (∃ e, σ.result i = some (Except.error e))
         ∨ σ.result i = some (Except.ok v))

theorem hour_pos : 0 < hour := by decide

theorem burstInv_step {n now : Nat} {cids : Fin n → String} {fv : String → String}
    {cid : String} {c0 : TokenCache} {σ σ' : BurstState n}
    (hcid : ∀ i, cids i = cid)
    (hstale : ∀ tok, c0 cid = some tok → tok.expiresAt ≤ now)
    (hlock : LockInv σ)
    (hinv : BurstInv n now cid (fv cid) c0 σ)
    (hstep : Step n now cids fv σ σ') :
    BurstInv n now cid (fv cid) c0 σ' := by
  cases hstep with
  | acquire i hl hp =>
      rcases hinv with ⟨hf, hc, hnf, hfe⟩ | ⟨hf, hc, i0, hfi, hli, hoth⟩ |
        ⟨hf, hc, hnf, hfe⟩
      · refine Or.inl ⟨hf, hc, fun k => ?_, fun k hk => ?_⟩
        · simp only
          by_cases hki : k = i
          · subst hki
            simp [Function.update_same]
          · rw [Function.update_noteq hki]
            exact hnf k
        · simp only at hk ⊢
          by_cases hki : k = i
          · subst hki
            rw [Function.update_same] at hk
            exact absurd hk (by simp)
          · rw [Function.update_noteq hki] at hk
            exact hfe k hk
      · rw [hl] at hli
        exact absurd hli (by simp)
      · refine Or.inr (Or.inr ⟨hf, hc, fun k => ?_, fun k hk => ?_⟩)
        · simp only
          by_cases hki : k = i
          · subst hki
            simp [Function.update_same]
          · rw [Function.update_noteq hki]
            exact hnf k
        · simp only at hk ⊢
          by_cases hki : k = i
          · subst hki
            rw [Function.update_same] at hk
            exact absurd hk (by simp)
          · rw [Function.update_noteq hki] at hk
            exact hfe k hk
  | hit i tok hl hp hc2 hlt =>
      rcases hinv with ⟨hf, hc, hnf, hfe⟩ | ⟨hf, hc, i0, hfi, hli, hoth⟩ |
        ⟨hf, hc, hnf, hfe⟩
      · rw [hc, hcid i] at hc2
        exact absurd hlt (Nat.not_lt.mpr (hstale tok hc2))
      · by_cases hii : i = i0
        · subst hii
          rw [hp] at hfi
          exact absurd hfi (by simp)
        · rcases hoth i hii with h | ⟨h, _⟩ <;> rw [hp] at h <;>
            exact absurd h (by simp)
      · rw [hc, hcid i, cacheInsert_self] at hc2
        injection hc2 with htok
        refine Or.inr (Or.inr ⟨hf, hc, fun k => ?_, fun k hk => ?_⟩)
        · simp only
          by_cases hki : k = i
          · subst hki
            simp [Function.update_same]
          · rw [Function.update_noteq hki]
            exact hnf k
        · simp only at hk ⊢
          by_cases hki : k = i
          · subst hki
            refine Or.inr ?_
            rw [Function.update_same, ← htok]
          · rw [Function.update_noteq hki] at hk
            rw [Function.update_noteq hki]
            exact hfe k hk
  | missAbsent i hl hp hc2 =>
      rcases hinv with ⟨hf, hc, hnf, hfe⟩ | ⟨hf, hc, i0, hfi, hli, hoth⟩ |
        ⟨hf, hc, hnf, hfe⟩
      · refine Or.inr (Or.inl ⟨by simp only; rw [hf], hc, i, ?_, hl,
          fun j hji => ?_⟩)
        · simp [Function.update_same]
        · simp only [Function.update_noteq hji]
          cases hpj : σ.phase j with
          | ready => exact Or.inl rfl
          | checking =>
              have hlj := hlock j (Or.inl hpj)
              rw [hl] at hlj
              injection hlj with hlj2
              exact absurd hlj2.symm hji
          | fetching => exact absurd hpj (hnf j)
          | finished => exact Or.inr ⟨rfl, hfe j hpj⟩
      · by_cases hii : i = i0
        · subst hii
          rw [hp] at hfi
          exact absurd hfi (by simp)
        · rcases hoth i hii with h | ⟨h, _⟩ <;> rw [hp] at h <;>
            exact absurd h (by simp)
      · rw [hc, hcid i, cacheInsert_self] at hc2
        exact absurd hc2 (by simp)
  | missExpired i tok hl hp hc2 hle =>
      rcases hinv with ⟨hf, hc, hnf, hfe⟩ | ⟨hf, hc, i0, hfi, hli, hoth⟩ |
        ⟨hf, hc, hnf, hfe⟩
      · refine Or.inr (Or.inl ⟨by simp only; rw [hf], hc, i, ?_, hl,
          fun j hji => ?_⟩)
        · simp [Function.update_same]
        · simp only [Function.update_noteq hji]
          cases hpj : σ.phase j with
          | ready => exact Or.inl rfl
          | checking =>
              have hlj := hlock j (Or.inl hpj)
              rw [hl] at hlj
              injection hlj with hlj2
              exact absurd hlj2.symm hji
          | fetching => exact absurd hpj (hnf j)
          | finished => exact Or.inr ⟨rfl, hfe j hpj⟩
      · by_cases hii : i = i0
        · subst hii
          rw [hp] at hfi
          exact absurd hfi (by simp)
        · rcases hoth i hii with h | ⟨h, _⟩ <;> rw [hp] at h <;>
            exact absurd h (by simp)
      · rw [hc, hcid i, cacheInsert_self] at hc2
        injection hc2 with htok
        rw [← htok] at hle
        exact absurd hle (Nat.not_le.mpr (Nat.lt_add_of_pos_right hour_pos))
  | storeOk i hl hp =>
      rcases hinv with ⟨hf, hc, hnf, hfe⟩ | ⟨hf, hc, i0, hfi, hli, hoth⟩ |
        ⟨hf, hc, hnf, hfe⟩
      · exact absurd hp (hnf i)
      · by_cases hii : i = i0
        · subst hii
          refine Or.inr (Or.inr ⟨hf, ?_, fun k => ?_, fun k hk => ?_⟩)
          · simp only
            rw [hc, hcid i]
          · simp only
            by_cases hki : k = i
            · subst hki
              simp [Function.update_same]
            · rw [Function.update_noteq hki]
              rcases hoth k hki with h | ⟨h, _⟩ <;> rw [h] <;> simp
          · simp only at hk ⊢
            by_cases hki : k = i
            · subst hki
              refine Or.inr ?_
              rw [Function.update_same, hcid k]
            · rw [Function.update_noteq hki] at hk
              rw [Function.update_noteq hki]
              rcases hoth k hki with h | ⟨h, he⟩
              · rw [hk] at h
                exact absurd h (by simp)
              · exact Or.inl he
        · rcases hoth i hii with h | ⟨h, _⟩ <;> rw [hp] at h <;>
            exact absurd h (by simp)
      · exact absurd hp (hnf i)
  | storeErr i e hl hp =>
      rcases hinv with ⟨hf, hc, hnf, hfe⟩ | ⟨hf, hc, i0, hfi, hli, hoth⟩ |
        ⟨hf, hc, hnf, hfe⟩
      · exact absurd hp (hnf i)
      · by_cases hii : i = i0
        · subst hii
          refine Or.inl ⟨hf, hc, fun k => ?_, fun k hk => ?_⟩
          · simp only
            by_cases hki : k = i
            · subst hki
              simp [Function.update_same]
            · rw [Function.update_noteq hki]
              rcases hoth k hki with h | ⟨h, _⟩ <;> rw [h] <;> simp
          · simp only at hk ⊢
            by_cases hki : k = i
            · subst hki
              rw [Function.update_same]
              exact ⟨e, rfl⟩
            · rw [Function.update_noteq hki] at hk
              rw [Function.update_noteq hki]
              rcases hoth k hki with h | ⟨h, he⟩
              · rw [hk] at h
                exact absurd h (by simp)
              · exact he
        · rcases hoth i hii with h | ⟨h, _⟩ <;> rw [hp] at h <;>
            exact absurd h (by simp)
      · exact absurd hp (hnf i)

theorem burstInv_reachable {n now : Nat} {cids : Fin n → String}
    {fv : String → String} {cid : String} {c0 : TokenCache} {σ : BurstState n}
    (hcid : ∀ i, cids i = cid)
    (hstale : ∀ tok, c0 cid = some tok → tok.expiresAt ≤ now)
    (h : Reachable n now cids fv (initState n c0) σ) :
    BurstInv n now cid (fv cid) c0 σ := by
  induction h with
  | refl =>
      refine Or.inl ⟨rfl, rfl, fun i => by simp [initState], fun i hi => ?_⟩
      exact absurd hi (by simp [initState])
  | tail σ1 σ2 hr hstep ih =>
      exact burstInv_step hcid hstale (lockInv_reachable hr) ih hstep

def wCids : Fin 1 → String := fun _ => "id"

def wCids2 : Fin 2 → String := fun _ => "id"

def wFv : String → String := fun _ => "tok"

def wInit : BurstState 1 := initState 1 emptyCache

def wStaleCache : TokenCache :=
  cacheInsert emptyCache "id" { value := "old", expiresAt := 0 }

/-- C7 (amended): the single mutex fully serializes fetches: in every
reachable interleaving of `n` concurrent `GetAccessToken` calls, at most one
thread is fetching at any instant, whatever the client ids; and in a
same-key burst from a stale (or absent) cache entry every fetch beyond the
first is accounted for by an earlier fetch's failure
(`fetchCount ≤ failCount + 1`), so when all callers have finished and no
fetch failed, exactly one fetch happened and every caller got the refreshed
cache value. -/
theorem mutex_serializes_fetches {n : Nat} (now : Nat) (cids : Fin n → String)
    (fv : String → String) :
    (∀ (c0 : TokenCache) (σ : BurstState n),
        Reachable n now cids fv (initState n c0) σ →
        ∀ i j, σ.phase i = Phase.fetching → σ.phase j = Phase.fetching → i = j)
    ∧ (∀ (cid : String) (c0 : TokenCache) (σ : BurstState n),
        (∀ i, cids i = cid) →
        (∀ tok, c0 cid = some tok → tok.expiresAt ≤ now) →
        Reachable n now cids fv (initState n c0) σ →
        σ.fetchCount ≤ σ.failCount + 1
        ∧ ((∀ i, σ.phase i = Phase.finished) → 0 < n → σ.failCount = 0 →
            σ.fetchCount = 1
            ∧ ∀ i, σ.result i = some (Except.ok (fv cid)))) := by
  constructor
  · intro c0 σ hr i j hi hj
    have hl := lockInv_reachable hr
    have h1 := hl i (Or.inr hi)
    have h2 := hl j (Or.inr hj)
    rw [h1] at h2
    exact Option.some.inj h2
  · intro cid c0 σ hcid hstale hr
    have hb := burstInv_reachable hcid hstale hr
    have hne := noFailNoErr_reachable hr
    constructor
    · rcases hb with ⟨hf, _⟩ | ⟨hf, _⟩ | ⟨hf, _⟩ <;> omega
    · intro hfin hn hnofail
      rcases hb with ⟨hf, hc, hnf, hfe⟩ | ⟨hf, hc, i, hfi, hli, hoth⟩ |
        ⟨hf, hc, hnf, hfe⟩
      · obtain ⟨e, he⟩ := hfe ⟨0, hn⟩ (hfin ⟨0, hn⟩)
        exact absurd he (hne hnofail ⟨0, hn⟩ e)
      · rw [hfin i] at hfi
        exact absurd hfi (by simp)
      · refine ⟨by omega, fun i => ?_⟩
        rcases hfe i (hfin i) with ⟨e, he⟩ | he
        · exact absurd he (hne hnofail i e)
        · exact he

theorem mutex_serializes_fetches_witness :
    ((0 : Fin 1) = 0) ∧ wInit.fetchCount ≤ wInit.failCount + 1 := by
  have h := mutex_serializes_fetches 0 wCids wFv
  have s1 : Step 1 0 wCids wFv wInit
      { wInit with lock := some 0,
                   phase := Function.update wInit.phase 0 Phase.checking } :=
    Step.acquire wInit 0 rfl rfl
  have r2 : ∃ σ2, Reachable 1 0 wCids wFv wInit σ2
      ∧ σ2.phase 0 = Phase.fetching := by
    refine ⟨_, Reachable.tail _ _ (Reachable.tail _ _ Reachable.refl s1)
      (Step.missAbsent _ 0 rfl (by simp) rfl), by simp⟩
  obtain ⟨σ2, hr2, hf2⟩ := r2
  refine ⟨h.1 emptyCache σ2 hr2 0 0 hf2 hf2, ?_⟩
  exact (h.2 "id" emptyCache wInit (fun _ => rfl)
    (fun tok htok => by simp [emptyCache] at htok) Reachable.refl).1

/-- C7 counterexample: a burst of two callers for the same freshly-expired
client id in which the first caller's fetch fails (the `if err != nil`
branch of the Go body) reaches a state where both callers have finished and
two network fetches were performed — refuting the unconditional
"exactly one network fetch" reading. -/
theorem burst_two_fetches_on_failure :
    ∃ σ, Reachable 2 0 wCids2 wFv (initState 2 wStaleCache) σ
      ∧ (∀ i, σ.phase i = Phase.finished) ∧ σ.fetchCount = 2 := by
  refine ⟨_, Reachable.tail _ _ (Reachable.tail _ _ (Reachable.tail _ _
    (Reachable.tail _ _ (Reachable.tail _ _ (Reachable.tail _ _ Reachable.refl
      (Step.acquire (initState 2 wStaleCache) 0 rfl rfl))
      (Step.missExpired _ 0 { value := "old", expiresAt := 0 } rfl (by simp)
        (by decide) (by decide)))
      (Step.storeErr _ 0 FetchError.transportError rfl (by simp)))
      (Step.acquire _ 1 rfl (by decide)))
      (Step.missExpired _ 1 { value := "old", expiresAt := 0 } rfl (by simp)
        (by decide) (by decide)))
      (Step.storeOk _ 1 rfl (by simp)),
    by decide, by decide⟩
